import Mathlib

/-!
Verification of `IDdataset.py` (survivorsunrestrained.org/Private).

The program reads a JSON file whose root is an array, assigns each
mapping-typed element a sequential 1-based `id`, and writes the result to
`<dir>/Outputs/<base>-mod<ext>`.  A batch mode applies this to every
`.json` file of a directory, and an interactive shell dispatches between
single-file and directory mode.

The embedding below models:
  * JSON values (`Json`), with Python `dict`s rendered as ordered
    association lists (insertion order preserved; assigning to an existing
    key updates the value in place, a new key is appended at the end);
  * the POSIX path operations the script uses (`os.path.dirname`,
    `os.path.basename`, `os.path.splitext`, `os.path.join`);
  * the filesystem as a finite map from paths to file contents plus a set
    of existing directories (`FS`); a file's content is either a parsed
    JSON value or unparseable text (`JContent.malformed`);
  * `add_ids_to_json`, `process_folder` and the single-file branch of
    `main` as state-passing functions over `FS`.
-/

set_option autoImplicit false

namespace IDdataset

/-! ## JSON values -/

/-- JSON values as parsed by `json.load`.  Numbers are modelled by the
integer subset (the only numbers the program itself produces are the
integer ids).  Objects are ordered association lists, matching the
insertion-ordered Python `dict`. -/
inductive Json where
  | null : Json
  | bool (b : Bool) : Json
  | num (n : Int) : Json
  | str (s : String) : Json
  | arr (elems : List Json) : Json
  | obj (fields : List (String × Json)) : Json
  deriving Repr

/-- Lookup of a key in an ordered association list (leftmost match),
as Python `d[k]` reads. -/
def lookupKey {α : Type} (k : String) : List (String × α) → Option α
  | [] => none
  | (k', v) :: rest => if k' = k then some v else lookupKey k rest

/-- Python `d[k] = v` on an insertion-ordered `dict`: if the key is
present its value is updated in place (position kept), otherwise the
pair is appended at the end. -/
def setKey {α : Type} (k : String) (v : α) : List (String × α) → List (String × α)
  | [] => [(k, v)]
  | (k', v') :: rest => if k' = k then (k, v) :: rest else (k', v') :: setKey k v rest

/-- One step of the tagging loop: `if isinstance(entry, dict): entry['id'] = index + 1`. -/
def tagEntry (index : Nat) : Json → Json
  | .obj fields => .obj (setKey "id" (.num (Int.ofNat (index + 1))) fields)
  | e => e

/-- The loop `for index, entry in enumerate(data_list)` starting at `index = i`. -/
def addIdsFrom (i : Nat) : List Json → List Json
  | [] => []
  | e :: rest => tagEntry i e :: addIdsFrom (i + 1) rest

/-- The whole tagging loop of `add_ids_to_json` (step 4 of the source),
starting from index 0. -/
def addIds (l : List Json) : List Json := addIdsFrom 0 l

/-! ## POSIX path operations used by the script -/

/-- Index of the last occurrence of a character in a list, if any
(Python `str.rfind`, restricted to the found case). -/
def lastIdx (c : Char) : List Char → Option Nat
  | [] => none
  | a :: rest =>
    match lastIdx c rest with
    | some i => some (i + 1)
    | none => if a = c then some 0 else none

/-- Model of `os.path.dirname` (POSIX): everything before the last `/`, with
trailing slashes stripped unless the head consists only of slashes. -/
def dirname (p : String) : String :=
  match lastIdx '/' p.data with
  | none => ""
  | some i =>
    let head := p.data.take (i + 1)
    let stripped := (head.reverse.dropWhile (fun c => c = '/')).reverse
    if stripped.isEmpty then String.mk head else String.mk stripped

/-- Model of `os.path.basename` (POSIX): everything after the last `/`. -/
def basename (p : String) : String :=
  match lastIdx '/' p.data with
  | none => p
  | some i => String.mk (p.data.drop (i + 1))

/-- Model of `os.path.splitext` (POSIX): split at the last dot, provided the dot
lies after the last path separator and some non-dot character stands
between the separator and the dot (so `.bashrc` has no extension). -/
def splitext (p : String) : String × String :=
  match lastIdx '.' p.data with
  | none => (p, "")
  | some di =>
    let sepBound : Nat :=
      match lastIdx '/' p.data with
      | none => 0
      | some si => si + 1
    if sepBound ≤ di then
      if ((p.data.drop sepBound).take (di - sepBound)).any (fun c => c != '.') then
        (String.mk (p.data.take di), String.mk (p.data.drop di))
      else (p, "")
    else (p, "")

/-- Model of `os.path.join a b` (POSIX) for two components: `b` wins if absolute;
otherwise a single `/` is inserted unless `a` is empty or already ends
with `/`. -/
def joinPath (a b : String) : String :=
  if b.data.head? = some '/' then b
  else if a = "" then b
  else if a.data.getLast? = some '/' then a ++ b
  else a ++ "/" ++ b

/-- The output directory computed by `add_ids_to_json`:
`os.path.join(os.path.dirname(input_filepath), "Outputs")`. -/
def output_dir (input_filepath : String) : String :=
  joinPath (dirname input_filepath) "Outputs"

/-- The output filename computed by `add_ids_to_json`:
`base + "-mod" + ext` for `base, ext = os.path.splitext(basename)`. -/
def output_filename (input_filepath : String) : String :=
  let be := splitext (basename input_filepath)
  be.1 ++ "-mod" ++ be.2

/-- The full output path computed by `add_ids_to_json`. -/
def output_filepath (input_filepath : String) : String :=
  joinPath (output_dir input_filepath) (output_filename input_filepath)

/-! ## Filesystem model and the program's functions -/

/-- Content of a file on disk, as seen through `json.load`: either a
parsed JSON value or text that fails to parse (raising
`json.JSONDecodeError`). -/
inductive JContent where
  | malformed : JContent
  | parsed (j : Json) : JContent

/-- The filesystem: a finite map from paths to file contents, plus the
set of existing directories. -/
structure FS where
  files : List (String × JContent)
  dirs : List String

/-- Model of `os.path.isfile`. -/
def isfile (fs : FS) (p : String) : Bool :=
  (lookupKey p fs.files).isSome

/-- Model of `os.makedirs(d, exist_ok)`: creates the directory if missing;
raises `FileExistsError` when it exists and `exist_ok` is false. -/
def makedirs (fs : FS) (d : String) (exist_ok : Bool) : Except String FS :=
  if d ∈ fs.dirs then
    if exist_ok then .ok fs else .error "FileExistsError"
  else .ok ⟨fs.files, d :: fs.dirs⟩

/-- Errors that can escape the `try` block of `add_ids_to_json` and are
caught by its `except` clauses. -/
inductive PyError where
  | fileNotFound : PyError
  | jsonDecodeError : PyError
  | otherError : PyError

/-- The `try` block of `add_ids_to_json` (steps 2–5 of the source): make
the output directory, read and parse the input, check the list shape,
tag, and write.  The returned `FS` records the side effects performed up
to the exit point (they persist even when an exception is raised);
`.ok none` is the non-list early return, `.error e` an exception to be
caught by the `except` clauses. -/
def add_ids_to_json_try (fs : FS) (input_filepath : String) :
    FS × Except PyError (Option String) :=
  match makedirs fs (output_dir input_filepath) true with
  | .error _ => (fs, .error .otherError)
  | .ok fs1 =>
    match lookupKey input_filepath fs1.files with
    | none => (fs1, .error .fileNotFound)
    | some .malformed => (fs1, .error .jsonDecodeError)
    | some (.parsed data) =>
      match data with
      | .arr data_list =>
        let out := output_filepath input_filepath
        (⟨setKey out (.parsed (.arr (addIds data_list))) fs1.files, fs1.dirs⟩,
          .ok (some out))
      | _ => (fs1, .ok none)

/-- Model of `add_ids_to_json`: the `try` block with every exception caught at the
boundary and converted to `None` (the source prints a marked message in
each `except` clause and returns `None`). -/
def add_ids_to_json (fs : FS) (input_filepath : String) : FS × Option String :=
  let r := add_ids_to_json_try fs input_filepath
  match r.2 with
  | .ok o => (r.1, o)
  | .error _ => (r.1, none)

/-- The loop of `process_folder` over the name-filtered entries: skip
entries that are not regular files, call `add_ids_to_json` on the rest.
Returns the final filesystem and the list of paths the tagger was
invoked on, in order. -/
def runFiles (fs : FS) (folder_path : String) : List String → FS × List String
  | [] => (fs, [])
  | filename :: rest =>
    let filepath := joinPath folder_path filename
    if isfile fs filepath then
      let fs1 := (add_ids_to_json fs filepath).1
      let r := runFiles fs1 folder_path rest
      (r.1, filepath :: r.2)
    else runFiles fs folder_path rest

/-- The name filter `f.lower().endswith('.json')` of `process_folder`. -/
def endsWithJson (name : String) : Bool :=
  List.isSuffixOf ".json".data (name.data.map Char.toLower)

/-- Model of `process_folder`: filter the directory listing by name, report the
empty notice when no name matches, else run the tagger over the matches.
The directory listing `entries` is a parameter (its content and order
come from `os.listdir`).  Returns the final filesystem, whether the
"No .json files found" notice was printed, and the list of paths the
tagger was invoked on. -/
def process_folder (fs : FS) (folder_path : String) (entries : List String) :
    FS × Bool × List String :=
  let json_files := entries.filter endsWithJson
  if json_files.isEmpty then (fs, true, [])
  else
    let r := runFiles fs folder_path json_files
    (r.1, false, r.2)

/-- The `isinstance(data, list)` view: the element list of an array
value, `none` for every other constructor. -/
def asList : Json → Option (List Json)
  | .arr l => some l
  | _ => none

/-- The filesystem after `os.makedirs(d, exist_ok=True)`: unchanged when
the directory exists, else the directory is added. -/
def mkdirFS (fs : FS) (d : String) : FS :=
  if d ∈ fs.dirs then fs else ⟨fs.files, d :: fs.dirs⟩

/-- The single-file branch of `main`: the tagger runs only when the
normalized path is an existing regular file whose lowercased name ends
in `.json`; otherwise an invalid-input message is printed.  Returns the
filesystem, the tagger's result, and whether the tagger was invoked. -/
def main_file_mode (fs : FS) (normalized_path : String) : FS × Option String × Bool :=
  if isfile fs normalized_path && endsWithJson normalized_path then
    let r := add_ids_to_json fs normalized_path
    (r.1, r.2, true)
  else (fs, none, false)

/-! ## Association-list lemmas -/

theorem lookupKey_setKey_self {α : Type} (k : String) (v : α) (l : List (String × α)) :
    lookupKey k (setKey k v l) = some v := by
  induction l with
  | nil => simp [setKey, lookupKey]
  | cons kv rest ih =>
    obtain ⟨k', v'⟩ := kv
    by_cases h : k' = k
    · simp [setKey, h, lookupKey]
    · simp [setKey, h, lookupKey, ih]

theorem lookupKey_setKey_ne {α : Type} {q k : String} (hne : q ≠ k) (v : α)
    (l : List (String × α)) : lookupKey q (setKey k v l) = lookupKey q l := by
  induction l with
  | nil => simp [setKey, lookupKey, Ne.symm hne]
  | cons kv rest ih =>
    obtain ⟨k', v'⟩ := kv
    by_cases h : k' = k
    · subst h
      simp [setKey, lookupKey, Ne.symm hne]
    · simp only [setKey, if_neg h, lookupKey]
      by_cases hq : k' = q
      · simp [hq]
      · simp [hq, ih]

theorem setKey_setKey_same {α : Type} (k : String) (v : α) (l : List (String × α)) :
    setKey k v (setKey k v l) = setKey k v l := by
  induction l with
  | nil => simp [setKey]
  | cons kv rest ih =>
    obtain ⟨k', v'⟩ := kv
    by_cases h : k' = k
    · simp [setKey, h]
    · simp [setKey, h, ih]

theorem filter_setKey_ne {α : Type} (k : String) (v : α) (l : List (String × α)) :
    (setKey k v l).filter (fun kv => kv.1 != k) = l.filter (fun kv => kv.1 != k) := by
  induction l with
  | nil => simp [setKey]
  | cons kv rest ih =>
    obtain ⟨k', v'⟩ := kv
    by_cases h : k' = k
    · subst h
      simp [setKey]
    · simp [setKey, h, ih]

/-! ## Tagging-loop lemmas -/

theorem length_addIdsFrom (i : Nat) (l : List Json) :
    (addIdsFrom i l).length = l.length := by
  induction l generalizing i with
  | nil => rfl
  | cons e rest ih => simp [addIdsFrom, ih]

theorem length_addIds (l : List Json) : (addIds l).length = l.length :=
  length_addIdsFrom 0 l

theorem getD_addIdsFrom (i j : Nat) (l : List Json) (hj : j < l.length) :
    (addIdsFrom i l).getD j Json.null = tagEntry (i + j) (l.getD j Json.null) := by
  induction l generalizing i j with
  | nil => simp at hj
  | cons e rest ih =>
    cases j with
    | zero => simp [addIdsFrom]
    | succ j' =>
      have hj' : j' < rest.length := by simpa using hj
      have harith : i + 1 + j' = i + (j' + 1) := by omega
      simp only [addIdsFrom, List.getD_cons_succ]
      rw [ih (i + 1) j' hj', harith]

theorem getD_addIds (j : Nat) (l : List Json) (hj : j < l.length) :
    (addIds l).getD j Json.null = tagEntry j (l.getD j Json.null) := by
  have h := getD_addIdsFrom 0 j l hj
  simpa using h

/-! ## Filesystem and tagger lemmas -/

theorem makedirs_true_eq (fs : FS) (d : String) :
    makedirs fs d true = .ok (mkdirFS fs d) := by
  unfold makedirs mkdirFS
  split <;> rfl

theorem mkdirFS_files (fs : FS) (d : String) : (mkdirFS fs d).files = fs.files := by
  unfold mkdirFS
  split <;> rfl

theorem mem_mkdirFS (fs : FS) (d : String) : d ∈ (mkdirFS fs d).dirs := by
  by_cases h : d ∈ fs.dirs <;> simp [mkdirFS, h]

theorem mkdirFS_of_mem (fs : FS) (d : String) (h : d ∈ fs.dirs) : mkdirFS fs d = fs := by
  simp [mkdirFS, h]

theorem asList_eq_some {j : Json} {l : List Json} (h : asList j = some l) : j = .arr l := by
  cases j <;> simp [asList] at h
  simp [h]

theorem try_not_found (fs : FS) (p : String) (h : lookupKey p fs.files = none) :
    add_ids_to_json_try fs p = (mkdirFS fs (output_dir p), .error .fileNotFound) := by
  unfold add_ids_to_json_try
  rw [makedirs_true_eq]
  simp only [mkdirFS_files, h]

theorem try_malformed (fs : FS) (p : String)
    (h : lookupKey p fs.files = some .malformed) :
    add_ids_to_json_try fs p = (mkdirFS fs (output_dir p), .error .jsonDecodeError) := by
  unfold add_ids_to_json_try
  rw [makedirs_true_eq]
  simp only [mkdirFS_files, h]

theorem try_not_list (fs : FS) (p : String) (j : Json)
    (h : lookupKey p fs.files = some (.parsed j)) (hj : asList j = none) :
    add_ids_to_json_try fs p = (mkdirFS fs (output_dir p), .ok none) := by
  unfold add_ids_to_json_try
  rw [makedirs_true_eq]
  simp only [mkdirFS_files, h]
  cases j <;> simp [asList] at hj ⊢

theorem try_arr (fs : FS) (p : String) (l : List Json)
    (h : lookupKey p fs.files = some (.parsed (.arr l))) :
    add_ids_to_json_try fs p =
      (⟨setKey (output_filepath p) (.parsed (.arr (addIds l))) fs.files,
        (mkdirFS fs (output_dir p)).dirs⟩, .ok (some (output_filepath p))) := by
  unfold add_ids_to_json_try
  rw [makedirs_true_eq]
  simp only [mkdirFS_files, h]

theorem add_ids_success (fs : FS) (p : String) (l : List Json)
    (h : lookupKey p fs.files = some (.parsed (.arr l))) :
    add_ids_to_json fs p =
      (⟨setKey (output_filepath p) (.parsed (.arr (addIds l))) fs.files,
        (mkdirFS fs (output_dir p)).dirs⟩, some (output_filepath p)) := by
  unfold add_ids_to_json
  rw [try_arr fs p l h]

theorem add_ids_not_found (fs : FS) (p : String) (h : lookupKey p fs.files = none) :
    add_ids_to_json fs p = (mkdirFS fs (output_dir p), none) := by
  unfold add_ids_to_json
  rw [try_not_found fs p h]

theorem add_ids_malformed (fs : FS) (p : String)
    (h : lookupKey p fs.files = some .malformed) :
    add_ids_to_json fs p = (mkdirFS fs (output_dir p), none) := by
  unfold add_ids_to_json
  rw [try_malformed fs p h]

theorem add_ids_not_list (fs : FS) (p : String) (j : Json)
    (h : lookupKey p fs.files = some (.parsed j)) (hj : asList j = none) :
    add_ids_to_json fs p = (mkdirFS fs (output_dir p), none) := by
  unfold add_ids_to_json
  rw [try_not_list fs p j h hj]

theorem add_ids_none_files (fs : FS) (p : String)
    (h : (add_ids_to_json fs p).2 = none) :
    (add_ids_to_json fs p).1.files = fs.files := by
  cases hc : lookupKey p fs.files with
  | none => rw [add_ids_not_found fs p hc]; exact mkdirFS_files fs _
  | some c =>
    cases c with
    | malformed => rw [add_ids_malformed fs p hc]; exact mkdirFS_files fs _
    | parsed j =>
      cases hj : asList j with
      | none => rw [add_ids_not_list fs p j hc hj]; exact mkdirFS_files fs _
      | some l =>
        rw [asList_eq_some hj] at hc
        rw [add_ids_success fs p l hc] at h
        simp at h

theorem add_ids_dirs (fs : FS) (p : String) :
    output_dir p ∈ (add_ids_to_json fs p).1.dirs := by
  cases hc : lookupKey p fs.files with
  | none => rw [add_ids_not_found fs p hc]; exact mem_mkdirFS fs _
  | some c =>
    cases c with
    | malformed => rw [add_ids_malformed fs p hc]; exact mem_mkdirFS fs _
    | parsed j =>
      cases hj : asList j with
      | none => rw [add_ids_not_list fs p j hc hj]; exact mem_mkdirFS fs _
      | some l =>
        rw [asList_eq_some hj] at hc
        rw [add_ids_success fs p l hc]
        exact mem_mkdirFS fs _

theorem add_ids_files_other (fs : FS) (p q : String) (hq : q ≠ output_filepath p) :
    lookupKey q (add_ids_to_json fs p).1.files = lookupKey q fs.files := by
  cases hc : lookupKey p fs.files with
  | none => rw [add_ids_not_found fs p hc, mkdirFS_files]
  | some c =>
    cases c with
    | malformed => rw [add_ids_malformed fs p hc, mkdirFS_files]
    | parsed j =>
      cases hj : asList j with
      | none => rw [add_ids_not_list fs p j hc hj, mkdirFS_files]
      | some l =>
        rw [asList_eq_some hj] at hc
        rw [add_ids_success fs p l hc]
        exact lookupKey_setKey_ne hq _ _

/-! ## Path lemmas -/

theorem data_ne_nil {s : String} (h : s ≠ "") : s.data ≠ [] := by
  intro hd
  exact h (String.ext hd)

theorem ne_empty_of_data {s : String} (h : s.data ≠ []) : s ≠ "" := by
  intro he
  rw [he] at h
  exact h rfl

theorem head?_ne_of_not_mem {c : Char} {l : List Char} (h : c ∉ l) :
    l.head? ≠ some c := by
  cases l with
  | nil => simp
  | cons a t =>
    intro ha
    have ha2 : a = c := by simpa using ha
    subst ha2
    exact h (List.mem_cons_self a t)

theorem lastIdx_of_not_mem {c : Char} {l : List Char} (h : c ∉ l) :
    lastIdx c l = none := by
  induction l with
  | nil => rfl
  | cons a rest ih =>
    simp only [List.mem_cons, not_or] at h
    simp [lastIdx, ih h.2, Ne.symm h.1]

theorem lastIdx_append_cons (c : Char) (l₁ l₂ : List Char) (h : c ∉ l₂) :
    lastIdx c (l₁ ++ c :: l₂) = some l₁.length := by
  induction l₁ with
  | nil => simp [lastIdx, lastIdx_of_not_mem h]
  | cons a rest ih => simp [lastIdx, ih]

theorem data_slash (D s : String) : (D ++ "/" ++ s).data = D.data ++ '/' :: s.data := by
  rw [String.data_append, String.data_append, List.append_assoc]
  rfl

theorem data_dot (a b : String) : (a ++ "." ++ b).data = a.data ++ '.' :: b.data := by
  rw [String.data_append, String.data_append, List.append_assoc]
  rfl

theorem dirname_concat (D s : String) (hD0 : D ≠ "") (hD1 : D.data.getLast? ≠ some '/')
    (hs : '/' ∉ s.data) : dirname (D ++ "/" ++ s) = D := by
  have hd : D.data ≠ [] := data_ne_nil hD0
  obtain ⟨c, t, hct⟩ : ∃ c t, D.data.reverse = c :: t := by
    cases hrev : D.data.reverse with
    | nil => exact absurd (by simpa using congrArg List.reverse hrev) hd
    | cons c t => exact ⟨c, t, rfl⟩
  have hc : c ≠ '/' := by
    intro h
    apply hD1
    rw [← List.head?_reverse, hct, h]
    rfl
  have htake : (D.data ++ '/' :: s.data).take (D.data.length + 1) = D.data ++ ['/'] := by
    rw [List.take_append]
    rfl
  have hstrip :
      ((D.data ++ ['/']).reverse.dropWhile (fun ch => ch = '/')).reverse = D.data := by
    rw [List.reverse_append, hct]
    simp only [List.reverse_cons, List.reverse_nil, List.nil_append, List.cons_append,
      List.dropWhile]
    simp [hc, ← hct]
  have hne : D.data.isEmpty = false := by
    cases hdd : D.data with
    | nil => exact absurd hdd hd
    | cons a b => rfl
  unfold dirname
  rw [data_slash, lastIdx_append_cons '/' D.data s.data hs]
  simp only [htake, hstrip, hne]
  rfl

theorem basename_concat (D s : String) (hs : '/' ∉ s.data) :
    basename (D ++ "/" ++ s) = s := by
  unfold basename
  rw [data_slash, lastIdx_append_cons '/' D.data s.data hs]
  simp only []
  rw [List.drop_append]
  rfl

theorem splitext_concat (name ext : String) (hn0 : name ≠ "") (hnd : '.' ∉ name.data)
    (hns : '/' ∉ name.data) (hes : '/' ∉ ext.data) (hed : '.' ∉ ext.data) :
    splitext (name ++ "." ++ ext) = (name, "." ++ ext) := by
  have hslash : '/' ∉ name.data ++ '.' :: ext.data := by
    have hsd : ('/' : Char) ≠ '.' := by decide
    simp [hns, hes, hsd]
  have hany : name.data.any (fun c => c != '.') = true := by
    cases hnn : name.data with
    | nil => exact absurd (String.ext hnn) hn0
    | cons a t =>
      have ha : a ≠ '.' := by
        rw [hnn] at hnd
        simp only [List.mem_cons, not_or] at hnd
        exact Ne.symm hnd.1
      simp [ha]
  unfold splitext
  rw [data_dot, lastIdx_append_cons '.' name.data ext.data hed,
    lastIdx_of_not_mem hslash]
  simp only [Nat.zero_le, if_true, List.drop_zero, Nat.sub_zero, List.take_left, hany]
  refine Prod.ext ?_ ?_
  · simp [List.take_left]
  · simp only []
    rw [List.drop_left]
    apply String.ext
    rw [String.data_append]
    rfl

theorem splitext_data (s : String) :
    (splitext s).1.data ++ (splitext s).2.data = s.data := by
  unfold splitext
  cases h : lastIdx '.' s.data with
  | none => simp
  | some di =>
    simp only []
    split
    · split
      · simp [List.take_append_drop]
      · simp
    · simp

theorem joinPath_normal (a b : String) (ha0 : a ≠ "") (ha1 : a.data.getLast? ≠ some '/')
    (hb : b.data.head? ≠ some '/') : joinPath a b = a ++ "/" ++ b := by
  unfold joinPath
  rw [if_neg hb, if_neg ha0, if_neg ha1]

theorem output_filepath_concat (D name ext : String)
    (hD0 : D ≠ "") (hD1 : D.data.getLast? ≠ some '/')
    (hn0 : name ≠ "") (hn1 : '/' ∉ name.data) (hn2 : '.' ∉ name.data)
    (he1 : '/' ∉ ext.data) (he2 : '.' ∉ ext.data) :
    output_filepath (D ++ "/" ++ (name ++ "." ++ ext))
        = D ++ "/Outputs/" ++ (name ++ "-mod." ++ ext) := by
  have hsd : ('/' : Char) ≠ '.' := by decide
  have hs : '/' ∉ (name ++ "." ++ ext).data := by
    rw [data_dot]
    simp [hn1, he1, hsd]
  have hdir : dirname (D ++ "/" ++ (name ++ "." ++ ext)) = D :=
    dirname_concat _ _ hD0 hD1 hs
  have hbase : basename (D ++ "/" ++ (name ++ "." ++ ext)) = name ++ "." ++ ext :=
    basename_concat _ _ hs
  have hsplit : splitext (name ++ "." ++ ext) = (name, "." ++ ext) :=
    splitext_concat name ext hn0 hn2 hn1 he1 he2
  have hOd : output_dir (D ++ "/" ++ (name ++ "." ++ ext)) = D ++ "/" ++ "Outputs" := by
    unfold output_dir
    rw [hdir]
    exact joinPath_normal D "Outputs" hD0 hD1 (by decide)
  have hOf : output_filename (D ++ "/" ++ (name ++ "." ++ ext))
      = name ++ "-mod" ++ ("." ++ ext) := by
    unfold output_filename
    rw [hbase, hsplit]
  have ha0 : (D ++ "/" ++ "Outputs") ≠ "" := by
    apply ne_empty_of_data
    rw [data_slash]
    simp
  have ha1 : (D ++ "/" ++ "Outputs").data.getLast? ≠ some '/' := by
    rw [data_slash, List.getLast?_append_of_ne_nil D.data (by simp)]
    decide
  have hb : (name ++ "-mod" ++ ("." ++ ext)).data.head? ≠ some '/' := by
    apply head?_ne_of_not_mem
    rw [String.data_append, String.data_append, String.data_append]
    have h1 : ('/' : Char) ∉ "-mod".data := by decide
    have h2 : ('/' : Char) ∉ ".".data := by decide
    simp [hn1, he1, h1, h2]
  unfold output_filepath
  rw [hOd, hOf, joinPath_normal _ _ ha0 ha1 hb]
  apply String.ext
  simp only [String.data_append]
  simp [List.append_assoc]

theorem joinPath_ne_output (f n m : String) (hf0 : f ≠ "")
    (hf1 : f.data.getLast? ≠ some '/') (hn1 : '/' ∉ n.data) (hm1 : '/' ∉ m.data) :
    joinPath f n ≠ output_filepath (joinPath f m) := by
  have hjn : joinPath f n = f ++ "/" ++ n :=
    joinPath_normal f n hf0 hf1 (head?_ne_of_not_mem hn1)
  have hjm : joinPath f m = f ++ "/" ++ m :=
    joinPath_normal f m hf0 hf1 (head?_ne_of_not_mem hm1)
  have hdir : dirname (f ++ "/" ++ m) = f := dirname_concat f m hf0 hf1 hm1
  have hbase : basename (f ++ "/" ++ m) = m := basename_concat f m hm1
  have hOd : output_dir (f ++ "/" ++ m) = f ++ "/" ++ "Outputs" := by
    unfold output_dir
    rw [hdir]
    exact joinPath_normal f "Outputs" hf0 hf1 (by decide)
  have hsp : (splitext m).1.data ++ (splitext m).2.data = m.data := splitext_data m
  have hsp1 : '/' ∉ (splitext m).1.data := fun hmem => hm1 (hsp ▸ List.mem_append_left _ hmem)
  have hsp2 : '/' ∉ (splitext m).2.data := fun hmem => hm1 (hsp ▸ List.mem_append_right _ hmem)
  have hfn : '/' ∉ (output_filename (f ++ "/" ++ m)).data := by
    unfold output_filename
    rw [hbase, String.data_append, String.data_append]
    have h4 : ('/' : Char) ∉ "-mod".data := by decide
    simp [hsp1, hsp2, h4]
  have ha0 : (f ++ "/" ++ "Outputs") ≠ "" := by
    apply ne_empty_of_data
    rw [data_slash]
    simp
  have ha1 : (f ++ "/" ++ "Outputs").data.getLast? ≠ some '/' := by
    rw [data_slash, List.getLast?_append_of_ne_nil f.data (by simp)]
    decide
  have hout : output_filepath (f ++ "/" ++ m)
      = (f ++ "/" ++ "Outputs") ++ "/" ++ output_filename (f ++ "/" ++ m) := by
    unfold output_filepath
    rw [hOd]
    exact joinPath_normal _ _ ha0 ha1 (head?_ne_of_not_mem hfn)
  rw [hjn, hjm, hout]
  intro heq
  have hdata := congrArg String.data heq
  rw [data_slash, data_slash, data_slash] at hdata
  rw [List.append_assoc] at hdata
  simp only [List.cons_append] at hdata
  have h2 := List.append_cancel_left hdata
  have h3 : n.data = "Outputs".data ++ '/' :: (output_filename (f ++ "/" ++ m)).data := by
    injection h2
  apply hn1
  rw [h3]
  exact List.mem_append_right _ (List.mem_cons_self _ _)

theorem runFiles_spec (f : String) (hf0 : f ≠ "") (hf1 : f.data.getLast? ≠ some '/') :
    ∀ (names : List String) (fs : FS), (∀ n ∈ names, '/' ∉ n.data) →
      (runFiles fs f names).2
        = (names.filter (fun n => isfile fs (joinPath f n))).map (joinPath f) := by
  intro names
  induction names with
  | nil =>
    intro fs _
    rfl
  | cons n rest ih =>
    intro fs hnames
    have hn : '/' ∉ n.data := hnames n (List.mem_cons_self n rest)
    have hrest : ∀ k ∈ rest, '/' ∉ k.data := fun k hk => hnames k (List.mem_cons_of_mem n hk)
    unfold runFiles
    by_cases hfe : isfile fs (joinPath f n) = true
    · rw [if_pos hfe]
      simp only []
      rw [ih ((add_ids_to_json fs (joinPath f n)).1) hrest]
      rw [List.filter_cons, if_pos hfe, List.map_cons]
      have hcong : ∀ k ∈ rest,
          isfile (add_ids_to_json fs (joinPath f n)).1 (joinPath f k)
            = isfile fs (joinPath f k) := by
        intro k hk
        unfold isfile
        rw [add_ids_files_other]
        exact joinPath_ne_output f k n hf0 hf1 (hrest k hk) hn
      rw [List.filter_congr hcong]
    · rw [if_neg hfe]
      rw [List.filter_cons, if_neg hfe]
      exact ih fs hrest

/-! ## Claim theorems -/

/-- C1: for an input file whose parsed content is a list of length N, the
written output list has length N; each element at index i that is a
mapping gets its `id` field set to i + 1, and each non-mapping element is
passed through unchanged while still consuming its index. -/
theorem C1_tagger_indexing (fs : FS) (p : String) (l : List Json)
    (h : lookupKey p fs.files = some (JContent.parsed (Json.arr l))) :
    lookupKey (output_filepath p) (add_ids_to_json fs p).1.files
        = some (JContent.parsed (Json.arr (addIds l))) ∧
    (addIds l).length = l.length ∧
    (∀ i fields, i < l.length → l.getD i Json.null = Json.obj fields →
      (addIds l).getD i Json.null
          = Json.obj (setKey "id" (Json.num (Int.ofNat (i + 1))) fields) ∧
      lookupKey "id" (setKey "id" (Json.num (Int.ofNat (i + 1))) fields)
          = some (Json.num (Int.ofNat (i + 1)))) ∧
    (∀ i, i < l.length → (∀ fields, l.getD i Json.null ≠ Json.obj fields) →
      (addIds l).getD i Json.null = l.getD i Json.null) := by
  refine ⟨?_, length_addIds l, ?_, ?_⟩
  · rw [add_ids_success fs p l h]
    exact lookupKey_setKey_self _ _ _
  · intro i fields hi hobj
    rw [getD_addIds i l hi, hobj]
    exact ⟨rfl, lookupKey_setKey_self _ _ _⟩
  · intro i hi hnotobj
    rw [getD_addIds i l hi]
    cases hv : l.getD i Json.null with
    | obj fields => exact absurd hv (hnotobj fields)
    | null => rfl
    | bool b => rfl
    | num n => rfl
    | str s => rfl
    | arr a => rfl

/-- Witness for C1 at a concrete two-element list (one mapping, one
number). -/
theorem C1_tagger_indexing_witness :
    lookupKey "d/a.json"
        (FS.mk [("d/a.json",
          JContent.parsed (Json.arr [Json.obj [("a", Json.num 5)], Json.num 7]))] []).files
      = some (JContent.parsed (Json.arr [Json.obj [("a", Json.num 5)], Json.num 7])) ∧
    (addIds [Json.obj [("a", Json.num 5)], Json.num 7]).length
      = ([Json.obj [("a", Json.num 5)], Json.num 7] : List Json).length :=
  ⟨rfl, (C1_tagger_indexing
    (FS.mk [("d/a.json",
      JContent.parsed (Json.arr [Json.obj [("a", Json.num 5)], Json.num 7]))] [])
    "d/a.json" [Json.obj [("a", Json.num 5)], Json.num 7] rfl).2.1⟩

/-- C2: a pre-existing `id` field is silently overwritten with the
position-based identifier; on input `[{"id": 99}]` the output is
`[{"id": 1}]`, and the assigned identifier never depends on the
element's existing content. -/
theorem C2_position_only :
    addIds [Json.obj [("id", Json.num 99)]] = [Json.obj [("id", Json.num 1)]] ∧
    ∀ (l : List Json) (i : Nat) (fields : List (String × Json)), i < l.length →
      l.getD i Json.null = Json.obj fields →
      ∃ fields2, (addIds l).getD i Json.null = Json.obj fields2 ∧
        lookupKey "id" fields2 = some (Json.num (Int.ofNat (i + 1))) := by
  constructor
  · rfl
  · intro l i fields hi hobj
    refine ⟨setKey "id" (Json.num (Int.ofNat (i + 1))) fields, ?_,
      lookupKey_setKey_self _ _ _⟩
    rw [getD_addIds i l hi, hobj]
    rfl

/-- Witness for C2 at the concrete input `[{"id": 99}]`. -/
theorem C2_position_only_witness :
    (0 : Nat) < ([Json.obj [("id", Json.num 99)]] : List Json).length ∧
    ∃ fields2,
      (addIds [Json.obj [("id", Json.num 99)]]).getD 0 Json.null = Json.obj fields2 ∧
      lookupKey "id" fields2 = some (Json.num (Int.ofNat 1)) :=
  ⟨by decide, C2_position_only.2 [Json.obj [("id", Json.num 99)]] 0
    [("id", Json.num 99)] (by decide) rfl⟩

/-- C3: on a failing invocation (input missing, content unparseable, or
parsed root not a list) the tagger returns `none`, and whenever it
returns `none` the file map is unchanged — no output file is written. -/
theorem C3_no_output_on_failure (fs : FS) (p : String) :
    ((lookupKey p fs.files = none → (add_ids_to_json fs p).2 = none) ∧
     (lookupKey p fs.files = some JContent.malformed →
        (add_ids_to_json fs p).2 = none) ∧
     (∀ j, lookupKey p fs.files = some (JContent.parsed j) → asList j = none →
        (add_ids_to_json fs p).2 = none)) ∧
    ((add_ids_to_json fs p).2 = none → (add_ids_to_json fs p).1.files = fs.files) := by
  refine ⟨⟨?_, ?_, ?_⟩, add_ids_none_files fs p⟩
  · intro h
    rw [add_ids_not_found fs p h]
  · intro h
    rw [add_ids_malformed fs p h]
  · intro j h hj
    rw [add_ids_not_list fs p j h hj]

/-- Witness for C3 at a concrete non-list input file. -/
theorem C3_no_output_on_failure_witness :
    lookupKey "d/x.json"
        (FS.mk [("d/x.json", JContent.parsed (Json.obj []))] []).files
      = some (JContent.parsed (Json.obj [])) ∧
    asList (Json.obj []) = none ∧
    (add_ids_to_json (FS.mk [("d/x.json", JContent.parsed (Json.obj []))] [])
        "d/x.json").2 = none :=
  ⟨rfl, rfl,
    (C3_no_output_on_failure (FS.mk [("d/x.json", JContent.parsed (Json.obj []))] [])
      "d/x.json").1.2.2 (Json.obj []) rfl rfl⟩

/-- C9: the `Outputs` directory is created before the input is read or
validated, so it exists after every invocation — including failing ones,
where no output file is written. -/
theorem C9_dir_created_even_on_failure (fs : FS) (p : String) :
    output_dir p ∈ (add_ids_to_json fs p).1.dirs ∧
    ((add_ids_to_json fs p).2 = none → (add_ids_to_json fs p).1.files = fs.files) :=
  ⟨add_ids_dirs fs p, add_ids_none_files fs p⟩

/-- Witness for C9 at a concrete missing input file. -/
theorem C9_dir_created_even_on_failure_witness :
    (add_ids_to_json (FS.mk [] []) "a.json").2 = none ∧
    output_dir "a.json" ∈ (add_ids_to_json (FS.mk [] []) "a.json").1.dirs ∧
    (add_ids_to_json (FS.mk [] []) "a.json").1.files = (FS.mk [] []).files :=
  ⟨rfl, (C9_dir_created_even_on_failure (FS.mk [] []) "a.json").1,
    (C9_dir_created_even_on_failure (FS.mk [] []) "a.json").2 rfl⟩

/-- C4: for an input path `D/name.ext` the output path is
`D/Outputs/name-mod.ext`, and the output directory is created if missing
without failing when it already exists. -/
theorem C4_output_path (D name ext : String) (hD0 : D ≠ "")
    (hD1 : D.data.getLast? ≠ some '/') (hn0 : name ≠ "") (hn1 : '/' ∉ name.data)
    (hn2 : '.' ∉ name.data) (he1 : '/' ∉ ext.data) (he2 : '.' ∉ ext.data) :
    output_filepath (D ++ "/" ++ (name ++ "." ++ ext))
        = D ++ "/Outputs/" ++ (name ++ "-mod." ++ ext) ∧
    ∀ fs : FS, ∃ fs2 : FS,
      makedirs fs (output_dir (D ++ "/" ++ (name ++ "." ++ ext))) true = .ok fs2 ∧
      output_dir (D ++ "/" ++ (name ++ "." ++ ext)) ∈ fs2.dirs ∧
      fs2.files = fs.files ∧
      (output_dir (D ++ "/" ++ (name ++ "." ++ ext)) ∈ fs.dirs → fs2 = fs) := by
  refine ⟨output_filepath_concat D name ext hD0 hD1 hn0 hn1 hn2 he1 he2, ?_⟩
  intro fs
  exact ⟨mkdirFS fs _, makedirs_true_eq fs _, mem_mkdirFS fs _, mkdirFS_files fs _,
    mkdirFS_of_mem fs _⟩

/-- Witness for C4 at the concrete path `d/a.json`. -/
theorem C4_output_path_witness :
    ("d" : String) ≠ "" ∧ ("a" : String) ≠ "" ∧
    output_filepath ("d" ++ "/" ++ ("a" ++ "." ++ "json"))
        = "d" ++ "/Outputs/" ++ ("a" ++ "-mod." ++ "json") :=
  ⟨by decide, by decide,
    (C4_output_path "d" "a" "json" (by decide) (by decide) (by decide) (by decide)
      (by decide) (by decide) (by decide)).1⟩

/-- C7: on a successful run the output file's parsed content is the input
list with ids added — same length, non-mapping elements unchanged, and
each mapping element unchanged except for its `id` field (all other
fields keep their values and their relative order). -/
theorem C7_roundtrip (fs : FS) (p : String) (l : List Json)
    (h : lookupKey p fs.files = some (JContent.parsed (Json.arr l))) :
    (add_ids_to_json fs p).2 = some (output_filepath p) ∧
    lookupKey (output_filepath p) (add_ids_to_json fs p).1.files
        = some (JContent.parsed (Json.arr (addIds l))) ∧
    (addIds l).length = l.length ∧
    ∀ i, i < l.length →
      ((∀ fields, l.getD i Json.null ≠ Json.obj fields) →
        (addIds l).getD i Json.null = l.getD i Json.null) ∧
      (∀ fields, l.getD i Json.null = Json.obj fields →
        (addIds l).getD i Json.null
            = Json.obj (setKey "id" (Json.num (Int.ofNat (i + 1))) fields) ∧
        (setKey "id" (Json.num (Int.ofNat (i + 1))) fields).filter
            (fun kv => kv.1 != "id")
          = fields.filter (fun kv => kv.1 != "id")) := by
  refine ⟨?_, ?_, length_addIds l, ?_⟩
  · rw [add_ids_success fs p l h]
  · rw [add_ids_success fs p l h]
    exact lookupKey_setKey_self _ _ _
  · intro i hi
    constructor
    · intro hnotobj
      rw [getD_addIds i l hi]
      cases hv : l.getD i Json.null with
      | obj fields => exact absurd hv (hnotobj fields)
      | null => rfl
      | bool b => rfl
      | num n => rfl
      | str s => rfl
      | arr a => rfl
    · intro fields hobj
      rw [getD_addIds i l hi, hobj]
      exact ⟨rfl, filter_setKey_ne "id" _ fields⟩

/-- Witness for C7 at a concrete one-element list. -/
theorem C7_roundtrip_witness :
    lookupKey "d/a.json"
        (FS.mk [("d/a.json", JContent.parsed (Json.arr [Json.obj [("a", Json.num 1)]]))] []).files
      = some (JContent.parsed (Json.arr [Json.obj [("a", Json.num 1)]])) ∧
    (add_ids_to_json
        (FS.mk [("d/a.json", JContent.parsed (Json.arr [Json.obj [("a", Json.num 1)]]))] [])
        "d/a.json").2 = some (output_filepath "d/a.json") :=
  ⟨rfl, (C7_roundtrip
    (FS.mk [("d/a.json", JContent.parsed (Json.arr [Json.obj [("a", Json.num 1)]]))] [])
    "d/a.json" [Json.obj [("a", Json.num 1)]] rfl).1⟩

/-- C8: the tagger is deterministic in its input, and a second run on the
same input writes the same content to the same output path, fully
overwriting the first run's output: the second run returns the same
path and leaves the filesystem exactly as the first run left it. -/
theorem C8_second_run_overwrites (fs : FS) (p : String) (l : List Json)
    (h : lookupKey p fs.files = some (JContent.parsed (Json.arr l)))
    (hp : output_filepath p ≠ p) :
    (add_ids_to_json fs p).2 = some (output_filepath p) ∧
    add_ids_to_json (add_ids_to_json fs p).1 p
        = ((add_ids_to_json fs p).1, some (output_filepath p)) := by
  have h1 := add_ids_success fs p l h
  constructor
  · rw [h1]
  · rw [h1]
    have h2 : lookupKey p
        (FS.mk (setKey (output_filepath p) (JContent.parsed (Json.arr (addIds l))) fs.files)
          (mkdirFS fs (output_dir p)).dirs).files
        = some (JContent.parsed (Json.arr l)) := by
      simp only []
      rw [lookupKey_setKey_ne (Ne.symm hp)]
      exact h
    have hmem : output_dir p ∈
        (FS.mk (setKey (output_filepath p) (JContent.parsed (Json.arr (addIds l))) fs.files)
          (mkdirFS fs (output_dir p)).dirs).dirs := mem_mkdirFS fs (output_dir p)
    rw [add_ids_success _ p l h2, mkdirFS_of_mem _ _ hmem]
    simp [setKey_setKey_same]

/-- Witness for C8 at a concrete input file holding an empty list. -/
theorem C8_second_run_overwrites_witness :
    output_filepath "d/a.json" ≠ "d/a.json" ∧
    (add_ids_to_json (FS.mk [("d/a.json", JContent.parsed (Json.arr []))] [])
        "d/a.json").2 = some (output_filepath "d/a.json") :=
  ⟨by decide,
    (C8_second_run_overwrites (FS.mk [("d/a.json", JContent.parsed (Json.arr []))] [])
      "d/a.json" [] rfl (by decide)).1⟩

/-- C5 counterexample: a directory whose only entry is a subdirectory
named `subdir.json` has zero matching regular files, yet `process_folder`
does not report the empty-result notice (the notice test runs on the
name-filtered listing before the regular-file check). -/
theorem C5_counterexample :
    (["subdir.json"].filter (fun n =>
        endsWithJson n
          && isfile (FS.mk [] ["d", "d/subdir.json"]) (joinPath "d" n))) = [] ∧
    (process_folder (FS.mk [] ["d", "d/subdir.json"]) "d" ["subdir.json"]).2.1 = false ∧
    (process_folder (FS.mk [] ["d", "d/subdir.json"]) "d" ["subdir.json"]).2.2 = [] := by
  refine ⟨?_, ?_, ?_⟩ <;> rfl

/-- C5 (amended): the batch runner invokes the tagger exactly on the
name-matched entries that are regular files, in listing order; the
empty-result notice is reported exactly when zero entries are
name-matched (a name-matched subdirectory suppresses the notice even
though it is skipped); with zero name-matched entries the filesystem is
untouched. -/
theorem C5_batch_filter (fs : FS) (f : String) (entries : List String) (hf0 : f ≠ "")
    (hf1 : f.data.getLast? ≠ some '/') (hen : ∀ n ∈ entries, '/' ∉ n.data) :
    ((process_folder fs f entries).2.1 = true ↔ entries.filter endsWithJson = []) ∧
    (process_folder fs f entries).2.2
        = ((entries.filter endsWithJson).filter
            (fun n => isfile fs (joinPath f n))).map (joinPath f) ∧
    (entries.filter endsWithJson = [] → (process_folder fs f entries).1 = fs) := by
  by_cases hj : entries.filter endsWithJson = []
  · unfold process_folder
    rw [hj]
    simp [hj]
  · have hne : (entries.filter endsWithJson).isEmpty = false := by
      cases hcc : entries.filter endsWithJson with
      | nil => exact absurd hcc hj
      | cons a b => rfl
    unfold process_folder
    simp only [hne, Bool.false_eq_true, if_false]
    refine ⟨by simp [hj], ?_, fun hcon => absurd hcon hj⟩
    exact runFiles_spec f hf0 hf1 (entries.filter endsWithJson) fs
      (fun n hn => hen n (List.mem_filter.mp hn).1)

/-- Witness for C5 (amended) at a concrete directory listing with one
matching file, one matching subdirectory and one non-matching file. -/
theorem C5_batch_filter_witness :
    ("d" : String) ≠ "" ∧
    (process_folder
        (FS.mk [("d/a.json", JContent.parsed (Json.arr [])),
                ("d/c.txt", JContent.malformed)] ["d", "d/subdir.json"])
        "d" ["a.json", "subdir.json", "c.txt"]).2.2
      = [joinPath "d" "a.json"] :=
  ⟨by decide, by
    rw [(C5_batch_filter
      (FS.mk [("d/a.json", JContent.parsed (Json.arr [])),
              ("d/c.txt", JContent.malformed)] ["d", "d/subdir.json"])
      "d" ["a.json", "subdir.json", "c.txt"] (by decide) (by decide)
      (by decide)).2.1]
    rfl⟩

/-- C6: every error raised inside the tagger's `try` block is caught at
the boundary and converted to `none` rather than propagating; and in
batch processing every name-matched regular file is invoked, regardless
of what the filesystem holds for the other files (so one file's failure
never prevents later invocations). -/
theorem C6_error_boundary :
    (∀ (fs : FS) (p : String) (e : PyError),
        (add_ids_to_json_try fs p).2 = Except.error e →
        add_ids_to_json fs p = ((add_ids_to_json_try fs p).1, none)) ∧
    (∀ (fs : FS) (f : String) (entries : List String) (n : String),
        f ≠ "" → f.data.getLast? ≠ some '/' → (∀ k ∈ entries, '/' ∉ k.data) →
        n ∈ entries → endsWithJson n = true → isfile fs (joinPath f n) = true →
        joinPath f n ∈ (process_folder fs f entries).2.2) := by
  constructor
  · intro fs p e h
    unfold add_ids_to_json
    simp only [h]
  · intro fs f entries n hf0 hf1 hen hn hjson hfile
    have hmem : n ∈ entries.filter endsWithJson := List.mem_filter.mpr ⟨hn, hjson⟩
    have hne : (entries.filter endsWithJson).isEmpty = false := by
      cases hcc : entries.filter endsWithJson with
      | nil =>
        rw [hcc] at hmem
        cases hmem
      | cons a b => rfl
    unfold process_folder
    simp only [hne, Bool.false_eq_true, if_false]
    rw [runFiles_spec f hf0 hf1 (entries.filter endsWithJson) fs
      (fun k hk => hen k (List.mem_filter.mp hk).1)]
    exact List.mem_map_of_mem _ (List.mem_filter.mpr ⟨hmem, hfile⟩)

/-- Witness for C6: with a malformed first file, the second file is still
invoked. -/
theorem C6_error_boundary_witness :
    endsWithJson "b.json" = true ∧
    joinPath "d" "b.json" ∈ (process_folder
        (FS.mk [("d/a.json", JContent.malformed),
                ("d/b.json", JContent.parsed (Json.arr []))] [])
        "d" ["a.json", "b.json"]).2.2 :=
  ⟨by decide,
    C6_error_boundary.2
      (FS.mk [("d/a.json", JContent.malformed),
              ("d/b.json", JContent.parsed (Json.arr []))] [])
      "d" ["a.json", "b.json"] "b.json" (by decide) (by decide) (by decide)
      (by decide) (by decide) (by decide)⟩

/-- C10: in the shell's single-file mode the tagger is invoked exactly
when the normalized path is an existing regular file whose lowercased
name ends in `.json`; a path without that ending is rejected without
invoking the tagger. -/
theorem C10_single_file_gate (fs : FS) (p : String) :
    ((main_file_mode fs p).2.2 = true ↔ (isfile fs p = true ∧ endsWithJson p = true)) ∧
    (endsWithJson p = false → main_file_mode fs p = (fs, none, false)) ∧
    ((main_file_mode fs p).2.2 = true →
      main_file_mode fs p = ((add_ids_to_json fs p).1, (add_ids_to_json fs p).2, true)) := by
  cases h1 : isfile fs p <;> cases h2 : endsWithJson p <;>
    simp [main_file_mode, h1, h2]

/-- Witness for C10: an existing file without the `.json` ending is
rejected without invoking the tagger. -/
theorem C10_single_file_gate_witness :
    endsWithJson "d/a.txt" = false ∧
    main_file_mode (FS.mk [("d/a.txt", JContent.malformed)] []) "d/a.txt"
      = (FS.mk [("d/a.txt", JContent.malformed)] [], none, false) :=
  ⟨by decide,
    (C10_single_file_gate (FS.mk [("d/a.txt", JContent.malformed)] []) "d/a.txt").2.1
      (by decide)⟩

end IDdataset
